import Mathlib

set_option maxRecDepth 100000

/-
Shallow embedding of the sampling-and-classification pipeline of src/server.ts
(a local RAM dashboard).  JavaScript numbers are modelled as Option Int, with
none standing for NaN; every arithmetic helper propagates none the way IEEE
NaN propagates.  Every number the pipeline stores is integer valued at a
fixed scale (megabytes, gigabytes, or tenths of a gigabyte), because each
division in the source feeds directly into Math.round; such a rounded
quotient is embedded as one exact roundDiv on integers, which agrees with
the floating-point computation of the source on all values in range (the
inputs are integers divided by powers of two, exactly represented in double
precision; the one non-dyadic divisor, the window count, feeds Math.round
directly as well).  External commands (ps, vm_stat, sysctl, lsof, osascript)
are inputs of type Except Unit String: error models a rejected promise, ok
carries the raw text.  A Math.random draw is modelled by the 53-bit integer
k the engine produces, the double being k divided by 2 to the 53; the stream
is indexed by loop position.  Only ASCII text is modelled: the toLowerCase
of the i regex flag and the whitespace class of a JS regex agree with the
Lean Char functions on ASCII, and substring counts code points where JS
counts UTF-16 units.
-/

/-- JS number: some n is an ordinary (exactly represented) value at the scale
documented at its use site, none is NaN. -/
abbrev JSNum := Option ℤ

/-- Whitespace class of JS regexes, restricted to ASCII. -/
def isJsSpace (c : Char) : Bool :=
  c == ' ' || c == '\t' || c == '\n' || c == '\r' || c == '\x0b' || c == '\x0c'

/-- Characters dropped at both ends by String.prototype.trim. -/
def trimChars (l : List Char) : List Char :=
  ((l.dropWhile isJsSpace).reverse.dropWhile isJsSpace).reverse

/-- JS s.trim(). -/
def jsTrim (s : String) : String := String.mk (trimChars s.data)

/-- JS s.trim().split(regex for one or more whitespace).  On the empty string
JS split returns a singleton list holding the empty string. -/
def jsSplitWs (s : String) : List String :=
  let t := trimChars s.data
  if t.isEmpty then [""]
  else ((t.splitOnP isJsSpace).filter (fun tok => !tok.isEmpty)).map String.mk

/-- Numeric value of a run of ASCII digits. -/
def digitsVal (l : List Char) : ℕ :=
  l.foldl (fun acc c => 10 * acc + (c.toNat - 48)) 0

/-- JS parseInt on a string: skip leading whitespace, optional sign, then a
maximal run of decimal digits; NaN when no digit is found.  The hexadecimal
0x prefix of parseInt is not modelled (never exercised: all parsed fields are
decimal process-table columns). -/
def jsParseInt (s : String) : JSNum :=
  match s.data.dropWhile isJsSpace with
  | '-' :: rest =>
      let ds := rest.takeWhile Char.isDigit
      if ds.isEmpty then none else some (-(digitsVal ds : ℤ))
  | '+' :: rest =>
      let ds := rest.takeWhile Char.isDigit
      if ds.isEmpty then none else some ((digitsVal ds : ℤ))
  | rest =>
      let ds := rest.takeWhile Char.isDigit
      if ds.isEmpty then none else some ((digitsVal ds : ℤ))

/-- parseInt applied to an array index that may be out of range: in JS the
missing element is undefined and parseInt(undefined) is NaN. -/
def jsParseIntOpt (s : Option String) : JSNum :=
  match s with
  | none => none
  | some s => jsParseInt s

/-- JS addition: NaN absorbs. -/
def jsAdd (a b : JSNum) : JSNum :=
  match a, b with
  | some x, some y => some (x + y)
  | _, _ => none

/-- JS subtraction: NaN absorbs. -/
def jsSub (a b : JSNum) : JSNum :=
  match a, b with
  | some x, some y => some (x - y)
  | _, _ => none

/-- JS multiplication by an integer constant (exact in double precision for
all values in range). -/
def jsMulC (a : JSNum) (c : ℤ) : JSNum := a.map (fun x => x * c)

/-- JS Math.round(a / d) for a positive divisor d, in one exact step: the
floor of a / d + 1 / 2, rounding halves toward positive infinity the way
Math.round does; NaN is fixed. -/
def roundDiv (a : JSNum) (d : ℤ) : JSNum :=
  a.map (fun x => Int.fdiv (2 * x + d) (2 * d))

/-- JS comparison a < b with a possibly NaN: false on NaN. -/
def jsLtB (a : JSNum) (b : ℤ) : Bool :=
  match a with
  | some x => decide (x < b)
  | none => false

/-- JS comparison a > b with a possibly NaN: false on NaN. -/
def jsGtB (a : JSNum) (b : ℤ) : Bool :=
  match a with
  | some x => decide (b < x)
  | none => false

/-- JS comparison a > b on two JS numbers: false when either is NaN. -/
def jsGtNum (a b : JSNum) : Bool :=
  match a, b with
  | some x, some y => decide (y < x)
  | _, _ => false

/-- JS falsiness of a number: 0 and NaN are falsy. -/
def jsFalsy (a : JSNum) : Bool :=
  match a with
  | some q => q == 0
  | none => true

/-- JS expression arr[i] || fallback on an array of numbers: the fallback is
used when the index is out of range (undefined) or the value is falsy. -/
def jsOrNum (v : Option JSNum) (fallback : JSNum) : JSNum :=
  match v with
  | some x => if jsFalsy x then fallback else x
  | none => fallback

/-- JS expression s || fallback on a possibly undefined string. -/
def jsOrStr (v : Option String) (fallback : String) : String :=
  match v with
  | some s => if s.isEmpty then fallback else s
  | none => fallback

/-- JS s.substring(0, n): the first n characters (UTF-16 units in JS, code
points here, identical on the basic plane). -/
def jsSubstring (s : String) (n : ℕ) : String := String.mk (s.data.take n)

/-- Does the list start with the given pattern? -/
def startsWithList : List Char → List Char → Bool
  | [], _ => true
  | _ :: _, [] => false
  | p :: ps, c :: cs => p == c && startsWithList ps cs

/-- Fuel-driven splitter on a nonempty separator, structurally recursive so
that it evaluates inside the kernel; with fuel at least the length of the
list it implements the usual left-to-right, non-overlapping split that keeps
empty pieces.  The zero-fuel case is unreachable at the fuel supplied by
jsSplitOn. -/
def splitFuel (sep : List Char) : ℕ → List Char → List (List Char)
  | _, [] => [[]]
  | 0, l => [l]
  | fuel + 1, c :: rest =>
      if startsWithList sep (c :: rest) then
        [] :: splitFuel sep fuel ((c :: rest).drop sep.length)
      else
        match splitFuel sep fuel rest with
        | [] => [[c]]
        | t :: ts => (c :: t) :: ts

/-- JS s.split(sep) for a nonempty literal separator (also the behavior of
String.splitOn): empty pieces are kept, the empty string yields one empty
piece. -/
def jsSplitOn (s sep : String) : List String :=
  (splitFuel sep.data s.data.length s.data).map String.mk

/-- JS arr.join(sep). -/
def joinSep (sep : String) : List String → String
  | [] => ""
  | [x] => x
  | x :: y :: rest => x ++ sep ++ joinSep sep (y :: rest)

/-- Does the list contain the pattern as a contiguous run?  Models the JS
String.prototype.includes and the plain-substring regexes of the source. -/
def containsList : List Char → List Char → Bool
  | [], pat => pat.isEmpty
  | c :: rest, pat => startsWithList pat (c :: rest) || containsList rest pat

/-- JS s.includes(pat), case sensitive. -/
def strContains (s pat : String) : Bool := containsList s.data pat.data

/-- Lower-cased character data, for the case-insensitive regex flag. -/
def lowerData (s : String) : List Char := s.data.map Char.toLower

/-- Case-insensitive substring test: a /pat/i regex without metacharacters. -/
def containsCI (s pat : String) : Bool :=
  containsList (lowerData s) (lowerData pat)

/-- Lookup in the association-list model of a JS Map. -/
def mapGet {β : Type} (m : List (String × β)) (k : String) : Option β :=
  (m.find? (fun kv => kv.1 == k)).map (fun kv => kv.2)

/-- Update in the association-list model of a JS Map: an existing key keeps
its position (all duplicates are overwritten, which agrees with JS on the
duplicate-free lists built by the pipeline), a new key is appended, as JS
Map insertion order prescribes. -/
def mapSet {β : Type} (m : List (String × β)) (k : String) (v : β) :
    List (String × β) :=
  if m.any (fun kv => kv.1 == k) then
    m.map (fun kv => if kv.1 == k then (k, v) else kv)
  else m ++ [(k, v)]

/-- One step of a stable descending insertion sort keyed by a JS number:
the new element passes elements with a strictly greater key and stops
otherwise, so a NaN comparison behaves like equality, the way the engine
treats a comparator returning NaN.  Models arr.sort((a, b) => key b - key a),
which ECMAScript requires to be stable. -/
def insertByDesc {α : Type} (key : α → JSNum) (x : α) : List α → List α
  | [] => [x]
  | y :: ys =>
      if jsGtNum (key y) (key x) then y :: insertByDesc key x ys
      else x :: y :: ys

/-- Stable descending sort by a JS-number key. -/
def jsSortDesc {α : Type} (key : α → JSNum) : List α → List α
  | [] => []
  | x :: xs => insertByDesc key x (jsSortDesc key xs)

/- Data model: the TS interfaces of src/server.ts. -/

structure AppMemory where
  name : String
  memory : JSNum
  processes : JSNum
  color : String
  deriving DecidableEq, Repr

structure ChromeTab where
  title : String
  url : String
  memory : JSNum
  deriving DecidableEq, Repr

structure PythonProcess where
  script : String
  memory : JSNum
  pid : JSNum
  deriving DecidableEq, Repr

structure ClaudeSession where
  workingDir : String
  projectName : String
  memory : JSNum
  pid : JSNum
  isSubagent : Bool
  deriving DecidableEq, Repr

structure VSCodeWorkspace where
  path : String
  memory : JSNum
  processes : JSNum
  deriving DecidableEq, Repr

structure SystemMemory where
  total : JSNum
  used : JSNum
  free : JSNum
  apps : List AppMemory
  chromeTabs : List ChromeTab
  pythonProcesses : List PythonProcess
  claudeSessions : List ClaudeSession
  vscodeWorkspaces : List VSCodeWorkspace
  timestamp : ℤ
  deriving DecidableEq, Repr

/- getPythonProcesses, src/server.ts lines 48-95. -/

/-- Character class of the script-name regex: neither whitespace nor slash. -/
def isPyTokenChar (c : Char) : Bool := !(isJsSpace c || c == '/')

/-- Offsets k of the run at which the literal .py occurs with at least one
class character before it. -/
def pyOffsets (run : List Char) : List ℕ :=
  (List.range run.length).filter
    (fun k => decide (1 ≤ k) && startsWithList ['.', 'p', 'y'] (run.drop k))

/-- Greedy match of the regex for a .py name against a maximal run of class
characters: the one-or-more class group backtracks from the longest
candidate, so the match ends at the last occurrence of .py in the run. -/
def runMatch (run : List Char) : Option (List Char) :=
  (pyOffsets run).getLast?.map (fun k => run.take (k + 3))

/-- Match attempt of the .py regex anchored at the current position. -/
def matchAtPos (l : List Char) : Option (List Char) :=
  runMatch (l.takeWhile isPyTokenChar)

/-- Leftmost match of the regex for a token of non-space non-slash characters
ending in .py, as command.match produces it: the engine advances one
position at a time until an anchored match succeeds. -/
def pyFind : List Char → Option (List Char)
  | [] => none
  | c :: rest =>
      match matchAtPos (c :: rest) with
      | some m => some m
      | none => pyFind rest

/-- Script-label derivation of getPythonProcesses: the .py match first, then
the known tool markers, then a truncated command for large processes, and
none where the source loop does continue. -/
def pythonScript (command : String) (memory : JSNum) : Option String :=
  match pyFind command.data with
  | some m => some (String.mk m)
  | none =>
      if strContains command "voice-mode" then some "voice-mode (MCP)"
      else if strContains command "ingest" then some "Supabase Ingestor"
      else if strContains command "uv run" then some "uv script"
      else if jsGtB memory 100 then some (jsSubstring command 40 ++ "...")
      else none

/-- One loop iteration of getPythonProcesses: parse the line, derive a label,
keep the record only above the 10 MB floor. -/
def pythonProcessOfLine (line : String) : Option PythonProcess :=
  let parts := jsSplitWs line
  let pid := jsParseIntOpt parts[1]?
  let memory := roundDiv (jsParseIntOpt parts[5]?) 1024
  let command := joinSep " " (parts.drop 10)
  match pythonScript command memory with
  | none => none
  | some script =>
      if jsGtB memory 10 then some { script := script, memory := memory, pid := pid }
      else none

/-- getPythonProcesses: on failure of the ps source the catch returns the
empty list; otherwise parse each nonempty line and sort by memory. -/
def getPythonProcesses (src : Except Unit String) : List PythonProcess :=
  match src with
  | .error _ => []
  | .ok output =>
      let lines := (jsSplitOn (jsTrim output) "\n").filter (fun l => decide (0 < l.length))
      jsSortDesc (fun p => p.memory) (lines.filterMap pythonProcessOfLine)

/- getClaudeSessions, src/server.ts lines 97-138. -/

/-- Project name from the working directory: split on slash, drop empty
segments and the fixed home markers, take the last remaining segment,
defaulting to Home. -/
def claudeProjectName (workingDir : String) : String :=
  (((jsSplitOn workingDir "/").filter
      (fun p => !p.isEmpty && p != "Users" && p != "maxghenis")).getLast?).getD "Home"

/-- One loop iteration of getClaudeSessions: the memory floor skips a line
only when the comparison is genuinely below 50 (false on NaN), the cwd
lookup failure degrades to the empty string. -/
def claudeSessionOfLine (lsof : JSNum → Except Unit String) (line : String) :
    Option ClaudeSession :=
  let parts := jsSplitWs line
  let pid := jsParseIntOpt parts[1]?
  let memory := roundDiv (jsParseIntOpt parts[5]?) 1024
  let command := joinSep " " (parts.drop 10)
  if jsLtB memory 50 then none
  else
    let workingDir :=
      match lsof pid with
      | .ok out => jsTrim out
      | .error _ => ""
    some { workingDir := workingDir
           projectName := claudeProjectName workingDir
           memory := memory
           pid := pid
           isSubagent := jsLtB memory 500 && strContains command "claude" }

/-- getClaudeSessions: empty on failure of the ps source, else one record per
surviving line, sorted by memory. -/
def getClaudeSessions (src : Except Unit String)
    (lsof : JSNum → Except Unit String) : List ClaudeSession :=
  match src with
  | .error _ => []
  | .ok output =>
      let lines := (jsSplitOn (jsTrim output) "\n").filter (fun l => decide (0 < l.length))
      jsSortDesc (fun s => s.memory) (lines.filterMap (claudeSessionOfLine lsof))

/- getVSCodeWorkspaces, src/server.ts lines 140-183. -/

/-- First capture of the window-title regex: an em dash and a space followed
by one or more characters other than an opening square bracket; on a failed
attempt the engine advances one position. -/
def emDashCapture : List Char → Option (List Char)
  | [] => none
  | c :: rest =>
      if startsWithList ['—', ' '] (c :: rest) then
        let cap := (rest.drop 1).takeWhile (fun d => d != '[')
        if cap.isEmpty then emDashCapture rest else some cap
      else emDashCapture rest

/-- Workspace path from a window title: the trimmed capture, or the raw
title when the regex does not match. -/
def workspacePathOfWindow (window : String) : String :=
  match emDashCapture window.data with
  | some cap => jsTrim (String.mk cap)
  | none => window

/-- getVSCodeWorkspaces: sum memory and process count over the helper lines;
when window enumeration succeeds, distribute both evenly over the windows,
keyed by extracted path; when it fails, one synthetic total entry. -/
def getVSCodeWorkspaces (src winSrc : Except Unit String) : List VSCodeWorkspace :=
  match src with
  | .error _ => []
  | .ok output =>
      let lines := (jsSplitOn (jsTrim output) "\n").filter (fun l => decide (0 < l.length))
      let totals := lines.foldl
        (fun acc line =>
          let parts := jsSplitWs line
          let memory := roundDiv (jsParseIntOpt parts[5]?) 1024
          (jsAdd acc.1 memory, jsAdd acc.2 (some 1)))
        ((some 0 : JSNum), (some 0 : JSNum))
      let workspaces : List (String × (JSNum × JSNum)) :=
        match winSrc with
        | .error _ => mapSet ([] : List (String × (JSNum × JSNum))) "VS Code (total)" (totals.1, totals.2)
        | .ok windowsOutput =>
            let windows := (jsSplitOn (jsTrim windowsOutput) ", ").filter (fun w => decide (0 < w.length))
            let memPerWindow := roundDiv totals.1 ((max windows.length 1 : ℕ) : ℤ)
            let procsPerWindow := roundDiv totals.2 ((max windows.length 1 : ℕ) : ℤ)
            windows.foldl
              (fun m window => mapSet m (workspacePathOfWindow window) (memPerWindow, procsPerWindow))
              []
      jsSortDesc (fun w : VSCodeWorkspace => w.memory)
        (workspaces.map (fun kv => { path := kv.1, memory := kv.2.1, processes := kv.2.2 }))

/- getChromeTabs, src/server.ts lines 185-224. -/

/-- Renderer memory of one ps line: field five or the literal zero when the
field is missing or empty, divided by 1024 and rounded. -/
def rendererMemOfLine (line : String) : JSNum :=
  let parts := jsSplitWs line
  roundDiv (jsParseInt (jsOrStr parts[5]? "0")) 1024

/-- One tab record from one enumerated line: title is the first field
truncated to 60 characters, Unknown when that is empty; url is the second
field or the empty string; memory is the supplied estimate. -/
def mkTab (line : String) (estimatedMemory : JSNum) : ChromeTab :=
  let fields := jsSplitOn line "|||"
  let title := jsSubstring (fields.headD "") 60
  { title := if title.isEmpty then "Unknown" else title
    url := (fields[1]?).getD ""
    memory := estimatedMemory }

/-- Index-tracking loop of the tab correlator: position i takes renderer
value i when that is truthy, otherwise the randomized estimate
Math.round(50 + random * 100), where the random double of an iteration is
the 53-bit stream value at that index divided by 2 to the 53. -/
def correlateGo (rendererMemory : List JSNum) (rng : ℕ → ℤ) :
    ℕ → List String → List ChromeTab
  | _, [] => []
  | i, line :: rest =>
      mkTab line (jsOrNum rendererMemory[i]? (roundDiv (some (50 * 2 ^ 53 + 100 * rng i)) (2 ^ 53))) ::
        correlateGo rendererMemory rng (i + 1) rest

/-- The tab correlator of getChromeTabs (loop at lines 210-219). -/
def correlateTabs (tabLines : List String) (rendererMemory : List JSNum)
    (rng : ℕ → ℤ) : List ChromeTab :=
  correlateGo rendererMemory rng 0 tabLines

/-- getChromeTabs: renderer sizes from the ps source, tab lines from the
enumeration source, positional correlation, then sort; a failure of either
source is caught and yields the empty list. -/
def getChromeTabs (psSrc tabsSrc : Except Unit String) (rng : ℕ → ℤ) :
    List ChromeTab :=
  match psSrc with
  | .error _ => []
  | .ok psOutput =>
      let processes := (jsSplitOn (jsTrim psOutput) "\n").filter (fun l => decide (0 < l.length))
      let rendererMemory := processes.map rendererMemOfLine
      match tabsSrc with
      | .error _ => []
      | .ok tabsOutput =>
          let tabLines := (jsSplitOn (jsTrim tabsOutput) "\n").filter (fun l => strContains l "|||")
          jsSortDesc (fun t => t.memory) (correlateTabs tabLines rendererMemory rng)

/- getSystemMemory, src/server.ts lines 226-299. -/

/-- Match attempt of the vm_stat regex at the current position: the literal
key, a colon, one or more whitespace characters, then captured digits. -/
def vmMatchAt (rest key : List Char) : Option ℕ :=
  if startsWithList key rest then
    match rest.drop key.length with
    | ':' :: t =>
        let sp := t.takeWhile isJsSpace
        let ds := (t.dropWhile isJsSpace).takeWhile Char.isDigit
        if !sp.isEmpty && !ds.isEmpty then some (digitsVal ds) else none
    | _ => none
  else none

/-- Leftmost match of the vm_stat regex over the whole text. -/
def vmScan (s key : List Char) : Option ℕ :=
  match s with
  | [] => none
  | _ :: rest =>
      match vmMatchAt s key with
      | some n => some n
      | none => vmScan rest key

/-- parseVmStat of the source: page count times the fixed 16384-byte page
size, converted to gigabytes; zero when the key is absent.  The gigabyte
value n * 16384 / 2^30 is represented exactly by the integer n in units of
2^-16 GB. -/
def parseVmStat (vmStatText : String) (key : String) : JSNum :=
  match vmScan vmStatText.data key.data with
  | some n => some ((n : ℤ))
  | none => some 0

/-- A classification rule: name, command-line predicate, display color. -/
structure AppRule where
  name : String
  test : String → Bool
  color : String

/-- Case-insensitive test of /node(?!.*[Cc]ode)/ on lowered text: some
occurrence of node is not followed anywhere later by code.  The dot of the
lookahead never meets a newline because commands are whitespace-joined
tokens. -/
def nodeScan : List Char → Bool
  | [] => false
  | c :: rest =>
      (startsWithList "node".data (c :: rest) &&
        !containsList ((c :: rest).drop 4) "code".data) || nodeScan rest

/-- The ordered rule list of getSystemMemory (lines 244-255). -/
def appPatterns : List AppRule :=
  [ { name := "Chrome", test := fun command => containsCI command "Google Chrome" || containsCI command "chrome", color := "#4285f4" },
    { name := "Claude Code", test := fun command => containsCI command "claude", color := "#cc785c" },
    { name := "VS Code", test := fun command => containsCI command "Visual Studio Code" || containsCI command "Code Helper", color := "#007acc" },
    { name := "Slack", test := fun command => containsCI command "Slack", color := "#4a154b" },
    { name := "Python", test := fun command => containsCI command "python", color := "#3776ab" },
    { name := "Node.js", test := fun command => nodeScan (lowerData command), color := "#339933" },
    { name := "Next.js", test := fun command => containsCI command "next-server", color := "#000000" },
    { name := "WhatsApp", test := fun command => containsCI command "WhatsApp", color := "#25d366" },
    { name := "Obsidian", test := fun command => containsCI command "Obsidian", color := "#7c3aed" },
    { name := "Docker", test := fun command => containsCI command "docker" || containsCI command "containerd", color := "#2496ed" } ]

/-- Accumulator entry of the appMemory map. -/
structure AppData where
  memory : JSNum
  processes : JSNum
  color : String
  deriving DecidableEq, Repr

/-- Attribute one process to one rule: fetch or default the entry, add the
resident size, bump the count. -/
def bumpApp (m : List (String × AppData)) (r : AppRule) (rss : JSNum) :
    List (String × AppData) :=
  let current := (mapGet m r.name).getD { memory := some 0, processes := some 0, color := r.color }
  mapSet m r.name
    { current with memory := jsAdd current.memory rss, processes := jsAdd current.processes (some 1) }

/-- Inner rule loop of the classifier: the first matching rule receives the
process and the loop breaks; with no match the map is untouched. -/
def applyRules (rules : List AppRule) (m : List (String × AppData))
    (command : String) (rss : JSNum) : List (String × AppData) :=
  match rules with
  | [] => m
  | r :: rest =>
      if r.test command then bumpApp m r rss
      else applyRules rest m command rss

/-- Command line of a split process-table line: fields ten onward, joined. -/
def cmdOfLine (line : String) : String :=
  joinSep " " ((jsSplitWs line).drop 10)

/-- Resident size of a split process-table line: field five, divided by 1024
in the source; the division is deferred into the rounding at the output
boundary, so the value is carried in KB. -/
def rssOfLine (line : String) : JSNum :=
  jsParseIntOpt (jsSplitWs line)[5]?

/-- Per-line step of the classifier: lines with fewer than eleven fields are
skipped, others are routed through the rule loop. -/
def stepPsLineR (rules : List AppRule) (m : List (String × AppData))
    (line : String) : List (String × AppData) :=
  if (jsSplitWs line).length < 11 then m
  else applyRules rules m (cmdOfLine line) (rssOfLine line)

/-- The appMemory map after the whole process table. -/
def buildAppMap (rules : List AppRule) (lines : List String) :
    List (String × AppData) :=
  lines.foldl (stepPsLineR rules) []

/-- The apps list of the snapshot: map entries rounded and sorted. -/
def appsFromLines (rules : List AppRule) (lines : List String) : List AppMemory :=
  jsSortDesc (fun a => a.memory)
    ((buildAppMap rules lines).map
      (fun kv => { name := kv.1, memory := roundDiv kv.2.memory 1024, processes := kv.2.processes, color := kv.2.color }))

/-- The collaborator inputs of one sampling pass: raw command outputs, the
per-pid cwd lookup, the random stream and the clock. -/
structure Env where
  sysctlMemsize : Except Unit String
  vmStat : Except Unit String
  psAux : Except Unit String
  pythonPs : Except Unit String
  claudePs : Except Unit String
  lsofCwd : JSNum → Except Unit String
  vscodePs : Except Unit String
  vscodeWindows : Except Unit String
  chromePs : Except Unit String
  chromeTabsSrc : Except Unit String
  rng : ℕ → ℤ
  now : ℤ

/-- getSystemMemory: the three top-level sources are awaited outside any
try/catch, so their failures propagate; the four detail getters catch their
own failures.  The timestamp is the sampling clock. -/
def getSystemMemory (env : Env) : Except Unit SystemMemory :=
  match env.sysctlMemsize with
  | .error e => .error e
  | .ok memsizeOut =>
  match env.vmStat with
  | .error e => .error e
  | .ok vmStatText =>
  match env.psAux with
  | .error e => .error e
  | .ok psOutput =>
      let memsizeBytes := jsParseInt memsizeOut
      let wired := parseVmStat vmStatText "Pages wired down"
      let active := parseVmStat vmStatText "Pages active"
      let compressed := parseVmStat vmStatText "Pages occupied by compressor"
      let used := jsAdd (jsAdd wired active) compressed
      let lines := (jsSplitOn (jsTrim psOutput) "\n").drop 1
      .ok
        { total := roundDiv memsizeBytes (2 ^ 30)
          used := roundDiv (jsMulC used 10) (2 ^ 16)
          free := roundDiv (jsMulC (jsSub memsizeBytes (jsMulC used (2 ^ 14))) 10) (2 ^ 30)
          apps := appsFromLines appPatterns lines
          chromeTabs := getChromeTabs env.chromePs env.chromeTabsSrc env.rng
          pythonProcesses := getPythonProcesses env.pythonPs
          claudeSessions := getClaudeSessions env.claudePs env.lsofCwd
          vscodeWorkspaces := getVSCodeWorkspaces env.vscodePs env.vscodeWindows
          timestamp := env.now }

/- Concrete inputs used by the closed theorems below. -/

/-- Two process-table lines of the end-to-end Python scenario: pid 100 at
204800 KB running ingest_pipeline.py and pid 101 at 5120 KB running
tiny.py. -/
def c7Input : String :=
  "user 100 0.0 1.2 500000 204800 ?? S 0:00 0:00 /usr/bin/python3 ingest_pipeline.py\nuser 101 0.0 0.1 400000 5120 ?? S 0:00 0:00 /usr/bin/python3 tiny.py"

/-- A process-table line with only six whitespace-delimited fields. -/
def pyShortLine : String := "u 7 0 0 0 204800"

/-- An interpreter command line whose only .py token is a path. -/
def c8Cmd : String := "/usr/bin/python3 /app/foo.py"

/-- A sampling environment in which every collaborator succeeds with empty
text, the random stream is constantly zero and the clock reads zero. -/
def envEmpty : Env :=
  { sysctlMemsize := .ok ""
    vmStat := .ok ""
    psAux := .ok ""
    pythonPs := .ok ""
    claudePs := .ok ""
    lsofCwd := fun _ => .ok ""
    vscodePs := .ok ""
    vscodeWindows := .ok ""
    chromePs := .ok ""
    chromeTabsSrc := .ok ""
    rng := fun _ => 0
    now := 0 }

/-- envEmpty with an unavailable vm_stat source. -/
def envC3 : Env := { envEmpty with vmStat := .error () }

/-- envEmpty with one enumerated Chrome tab and no renderer lines. -/
def envC4 : Env := { envEmpty with chromeTabsSrc := .ok "T|||u" }

/-- envC4 with a different random stream (each draw is the double one half)
and the same raw text inputs. -/
def envC4b : Env := { envC4 with rng := fun _ => 2 ^ 52 }

/-- The snapshot produced from envEmpty. -/
def snapEmpty : SystemMemory :=
  { total := none
    used := some 0
    free := none
    apps := []
    chromeTabs := []
    pythonProcesses := []
    claudeSessions := []
    vscodeWorkspaces := []
    timestamp := 0 }

/- Helper lemmas: the stable descending sort. -/

theorem jsGtNum_true (a b : JSNum) (h : jsGtNum a b = true) :
    ∃ x y, a = some x ∧ b = some y ∧ y < x := by
  cases a with
  | none => simp [jsGtNum] at h
  | some x =>
      cases b with
      | none => simp [jsGtNum] at h
      | some y => exact ⟨x, y, rfl, rfl, by simpa [jsGtNum] using h⟩

theorem mem_insertByDesc {α : Type} (key : α → JSNum) (x a : α) (l : List α) :
    a ∈ insertByDesc key x l ↔ a = x ∨ a ∈ l := by
  induction l with
  | nil => simp [insertByDesc]
  | cons y ys ih =>
      rw [insertByDesc]
      by_cases h : jsGtNum (key y) (key x) = true
      · rw [if_pos h]
        simp only [List.mem_cons, ih]
        tauto
      · rw [if_neg h]
        simp only [List.mem_cons]

theorem mem_jsSortDesc {α : Type} (key : α → JSNum) (a : α) (l : List α) :
    a ∈ jsSortDesc key l ↔ a ∈ l := by
  induction l with
  | nil => simp [jsSortDesc]
  | cons x xs ih =>
      rw [jsSortDesc, mem_insertByDesc, ih, List.mem_cons]

theorem insertByDesc_pairwise {α : Type} (key : α → JSNum) (x : α) (l : List α)
    (hx : (key x).isSome = true) (hl : ∀ y ∈ l, (key y).isSome = true)
    (h : l.Pairwise (fun a b => jsGtNum (key b) (key a) = false)) :
    (insertByDesc key x l).Pairwise (fun a b => jsGtNum (key b) (key a) = false) := by
  induction l with
  | nil => simp [insertByDesc]
  | cons y ys ih =>
      obtain ⟨hy, hys⟩ := List.pairwise_cons.mp h
      by_cases c : jsGtNum (key y) (key x) = true
      · rw [insertByDesc, if_pos c]
        refine List.pairwise_cons.mpr ⟨?_, ih (fun z hz => hl z (List.mem_cons_of_mem y hz)) hys⟩
        intro z hz
        rcases (mem_insertByDesc key x z ys).mp hz with rfl | hz2
        · obtain ⟨ky, kx, hky, hkx, hlt⟩ := jsGtNum_true _ _ c
          simp [jsGtNum, hky, hkx, not_lt.mpr (le_of_lt hlt)]
        · exact hy z hz2
      · rw [insertByDesc, if_neg c]
        refine List.pairwise_cons.mpr ⟨?_, h⟩
        intro z hz
        rcases List.mem_cons.mp hz with rfl | hz2
        · cases hb : jsGtNum (key z) (key x) with
          | false => rfl
          | true => exact absurd hb c
        · obtain ⟨kx, hkx⟩ := Option.isSome_iff_exists.mp hx
          obtain ⟨ky, hky⟩ := Option.isSome_iff_exists.mp (hl y (List.mem_cons_self y ys))
          obtain ⟨kz, hkz⟩ := Option.isSome_iff_exists.mp (hl z (List.mem_cons_of_mem _ hz2))
          have h1 : ¬ kx < ky := by
            intro hc
            exact c (by simp [jsGtNum, hky, hkx, hc])
          have h2 : ¬ ky < kz := by
            have := hy z hz2
            simp only [jsGtNum, hkz, hky] at this
            simpa using this
          simp only [jsGtNum, hkz, hkx]
          simpa using not_lt.mpr (le_trans (not_lt.mp h2) (not_lt.mp h1))

theorem jsSortDesc_pairwise {α : Type} (key : α → JSNum) (l : List α)
    (hl : ∀ y ∈ l, (key y).isSome = true) :
    (jsSortDesc key l).Pairwise (fun a b => jsGtNum (key b) (key a) = false) := by
  induction l with
  | nil => simp [jsSortDesc]
  | cons x xs ih =>
      rw [jsSortDesc]
      refine insertByDesc_pairwise key x _ (hl x (List.mem_cons_self x xs)) ?_ ?_
      · intro y hy
        exact hl y (List.mem_cons_of_mem _ ((mem_jsSortDesc key y xs).mp hy))
      · exact ih (fun y hy => hl y (List.mem_cons_of_mem _ hy))

theorem filter_insertByDesc_of_eq {α : Type} (key : α → JSNum) (x : α) (l : List α)
    (q : JSNum) (hx : key x = q) :
    (insertByDesc key x l).filter (fun y => decide (key y = q)) =
      x :: l.filter (fun y => decide (key y = q)) := by
  induction l with
  | nil => simp [insertByDesc, hx]
  | cons y ys ih =>
      by_cases c : jsGtNum (key y) (key x) = true
      · have hyq : ¬ (key y = q) := by
          intro hq
          obtain ⟨ky, kx, hky, hkx, hlt⟩ := jsGtNum_true _ _ c
          rw [hx] at hkx
          rw [hq] at hky
          rw [hky] at hkx
          injection hkx with hkx
          rw [hkx] at hlt
          exact lt_irrefl _ hlt
        rw [insertByDesc, if_pos c, List.filter_cons, if_neg (by simpa using hyq), ih,
            List.filter_cons, if_neg (by simpa using hyq)]
      · rw [insertByDesc, if_neg c, List.filter_cons, if_pos (by simpa using hx)]

theorem filter_insertByDesc_of_ne {α : Type} (key : α → JSNum) (x : α) (l : List α)
    (q : JSNum) (hx : ¬ key x = q) :
    (insertByDesc key x l).filter (fun y => decide (key y = q)) =
      l.filter (fun y => decide (key y = q)) := by
  induction l with
  | nil => simp [insertByDesc, hx]
  | cons y ys ih =>
      by_cases c : jsGtNum (key y) (key x) = true
      · rw [insertByDesc, if_pos c, List.filter_cons, List.filter_cons]
        by_cases hy : key y = q
        · rw [if_pos (by simpa using hy), if_pos (by simpa using hy), ih]
        · rw [if_neg (by simpa using hy), if_neg (by simpa using hy), ih]
      · rw [insertByDesc, if_neg c, List.filter_cons, if_neg (by simpa using hx)]

theorem jsSortDesc_filter_key {α : Type} (key : α → JSNum) (l : List α) (q : JSNum) :
    (jsSortDesc key l).filter (fun y => decide (key y = q)) =
      l.filter (fun y => decide (key y = q)) := by
  induction l with
  | nil => simp [jsSortDesc]
  | cons x xs ih =>
      rw [jsSortDesc]
      by_cases hx : key x = q
      · rw [filter_insertByDesc_of_eq key x _ q hx, ih, List.filter_cons, if_pos (by simpa using hx)]
      · rw [filter_insertByDesc_of_ne key x _ q hx, ih, List.filter_cons, if_neg (by simpa using hx)]

/- Helper lemmas: the association-list model of a JS Map. -/

theorem find?_cons_pos {γ : Type} (p : γ → Bool) (a : γ) (l : List γ) (h : p a = true) :
    List.find? p (a :: l) = some a := List.find?_cons_of_pos l h

theorem find?_cons_neg {γ : Type} (p : γ → Bool) (a : γ) (l : List γ) (h : p a = false) :
    List.find? p (a :: l) = List.find? p l :=
  List.find?_cons_of_neg l (by simp [h])

theorem mapGet_nil {β : Type} (k : String) : mapGet ([] : List (String × β)) k = none := rfl

theorem mapGet_cons_of_pos {β : Type} (kv : String × β) (rest : List (String × β))
    (k : String) (h : (kv.1 == k) = true) : mapGet (kv :: rest) k = some kv.2 := by
  unfold mapGet
  rw [find?_cons_pos (fun kv => kv.1 == k) kv rest h]
  rfl

theorem mapGet_cons_of_neg {β : Type} (kv : String × β) (rest : List (String × β))
    (k : String) (h : (kv.1 == k) = false) : mapGet (kv :: rest) k = mapGet rest k := by
  unfold mapGet
  rw [find?_cons_neg (fun kv => kv.1 == k) kv rest h]

theorem mapGet_mapReplace {β : Type} (m : List (String × β)) (k : String) (v : β)
    (h : m.any (fun kv => kv.1 == k) = true) :
    mapGet (m.map (fun kv => if kv.1 == k then (k, v) else kv)) k = some v := by
  induction m with
  | nil => simp at h
  | cons kv rest ih =>
      by_cases hk : (kv.1 == k) = true
      · simp only [List.map_cons, if_pos hk]
        rw [mapGet_cons_of_pos _ _ _ (by simp)]
      · have hk2 : (kv.1 == k) = false := by
          cases hb : (kv.1 == k) with
          | false => rfl
          | true => exact absurd hb hk
        have h2 : rest.any (fun kv => kv.1 == k) = true := by
          rcases List.any_eq_true.mp h with ⟨x, hx, hpx⟩
          rcases List.mem_cons.mp hx with rfl | hx2
          · exact absurd hpx hk
          · exact List.any_eq_true.mpr ⟨x, hx2, hpx⟩
        simp only [List.map_cons, if_neg hk]
        rw [mapGet_cons_of_neg _ _ _ hk2]
        exact ih h2

theorem mapGet_mapSet_self {β : Type} (m : List (String × β)) (k : String) (v : β) :
    mapGet (mapSet m k v) k = some v := by
  unfold mapSet
  by_cases h : m.any (fun kv => kv.1 == k) = true
  · rw [if_pos h]
    exact mapGet_mapReplace m k v h
  · rw [if_neg h]
    unfold mapGet
    rw [List.find?_append]
    have hnone : List.find? (fun kv => kv.1 == k) m = none := by
      rw [List.find?_eq_none]
      intro x hx hpx
      exact h (List.any_eq_true.mpr ⟨x, hx, hpx⟩)
    rw [hnone]
    simp [List.find?]

theorem mapGet_mapSet_ne {β : Type} (m : List (String × β)) (k n : String) (v : β)
    (hn : n ≠ k) : mapGet (mapSet m k v) n = mapGet m n := by
  have hkn : (k == n) = false := by
    cases hb : (k == n) with
    | false => rfl
    | true => exact absurd (by simpa using hb) (Ne.symm hn)
  unfold mapSet
  by_cases h : m.any (fun kv => kv.1 == k) = true
  · rw [if_pos h]
    clear h
    induction m with
    | nil => rfl
    | cons kv rest ih =>
        by_cases hk : (kv.1 == k) = true
        · simp only [List.map_cons, if_pos hk]
          have hkvn : (kv.1 == n) = false := by
            have : kv.1 = k := by simpa using hk
            rw [this]
            exact hkn
          rw [mapGet_cons_of_neg _ _ _ hkn, mapGet_cons_of_neg _ _ _ hkvn]
          exact ih
        · simp only [List.map_cons, if_neg hk]
          by_cases hkvn : (kv.1 == n) = true
          · rw [mapGet_cons_of_pos _ _ _ hkvn, mapGet_cons_of_pos _ _ _ hkvn]
          · have hkvn2 : (kv.1 == n) = false := by
              cases hb : (kv.1 == n) with
              | false => rfl
              | true => exact absurd hb hkvn
            rw [mapGet_cons_of_neg _ _ _ hkvn2, mapGet_cons_of_neg _ _ _ hkvn2]
            exact ih
  · rw [if_neg h]
    unfold mapGet
    rw [List.find?_append]
    have hlast : List.find? (fun kv => kv.1 == n) [(k, v)] = none := by
      simp [List.find?, hkn]
    rw [hlast, Option.or_none]

theorem mapGet_eq_none_forall {β : Type} (m : List (String × β)) (n : String)
    (h : mapGet m n = none) : ∀ kv ∈ m, kv.1 ≠ n := by
  intro kv hkv he
  unfold mapGet at h
  rw [Option.map_eq_none'] at h
  rw [List.find?_eq_none] at h
  exact h kv hkv (by simpa using he)

/- Helper lemmas: the first-match rule loop. -/

theorem applyRules_of_none (rules : List AppRule) (m : List (String × AppData))
    (command : String) (rss : JSNum)
    (h : List.find? (fun r => r.test command) rules = none) :
    applyRules rules m command rss = m := by
  induction rules with
  | nil => rfl
  | cons r rest ih =>
      by_cases hr : r.test command = true
      · rw [find?_cons_pos (fun r => r.test command) r rest hr] at h
        cases h
      · rw [find?_cons_neg (fun r => r.test command) r rest (Bool.eq_false_iff.mpr hr)] at h
        rw [applyRules, if_neg hr]
        exact ih h

theorem applyRules_of_some (rules : List AppRule) (m : List (String × AppData))
    (command : String) (rss : JSNum) (r : AppRule)
    (h : List.find? (fun rr => rr.test command) rules = some r) :
    applyRules rules m command rss = bumpApp m r rss := by
  induction rules with
  | nil => cases h
  | cons r0 rest ih =>
      by_cases hr : r0.test command = true
      · rw [find?_cons_pos (fun rr => rr.test command) r0 rest hr] at h
        injection h with h
        rw [applyRules, if_pos hr, h]
      · rw [find?_cons_neg (fun rr => rr.test command) r0 rest (Bool.eq_false_iff.mpr hr)] at h
        rw [applyRules, if_neg hr]
        exact ih h

theorem mapGet_bumpApp_ne (m : List (String × AppData)) (r : AppRule) (rss : JSNum)
    (n : String) (h : n ≠ r.name) : mapGet (bumpApp m r rss) n = mapGet m n := by
  unfold bumpApp
  exact mapGet_mapSet_ne _ _ _ _ h

theorem stepPsLineR_of_none (rules : List AppRule) (m : List (String × AppData))
    (line : String)
    (h : List.find? (fun r => r.test (cmdOfLine line)) rules = none) :
    stepPsLineR rules m line = m := by
  unfold stepPsLineR
  by_cases hl : (jsSplitWs line).length < 11
  · rw [if_pos hl]
  · rw [if_neg hl]
    exact applyRules_of_none _ _ _ _ h

theorem mapGet_foldl_none (rules : List AppRule) (lines : List String) (n : String) :
    ∀ m : List (String × AppData), mapGet m n = none →
    (∀ line ∈ lines, ∀ r : AppRule,
        List.find? (fun rr => rr.test (cmdOfLine line)) rules = some r → r.name ≠ n) →
    mapGet (lines.foldl (stepPsLineR rules) m) n = none := by
  induction lines with
  | nil =>
      intro m hm _
      simpa using hm
  | cons line rest ih =>
      intro m hm hall
      rw [List.foldl_cons]
      refine ih _ ?_ (fun l hl r hr => hall l (List.mem_cons_of_mem _ hl) r hr)
      unfold stepPsLineR
      by_cases hl : (jsSplitWs line).length < 11
      · rw [if_pos hl]
        exact hm
      · rw [if_neg hl]
        cases hf : List.find? (fun rr => rr.test (cmdOfLine line)) rules with
        | none =>
            rw [applyRules_of_none _ _ _ _ hf]
            exact hm
        | some r =>
            rw [applyRules_of_some _ _ _ _ _ hf]
            rw [mapGet_bumpApp_ne _ _ _ _ (Ne.symm (hall line (List.mem_cons_self _ _) r hf))]
            exact hm

/- Helper lemmas: the .py regex. -/

theorem startsWithList_iff (p : List Char) : ∀ l : List Char,
    startsWithList p l = true ↔ ∃ r, l = p ++ r := by
  induction p with
  | nil =>
      intro l
      simp [startsWithList]
  | cons a as ih =>
      intro l
      cases l with
      | nil =>
          simp [startsWithList]
      | cons c cs =>
          rw [startsWithList]
          simp only [Bool.and_eq_true, beq_iff_eq, ih cs]
          constructor
          · rintro ⟨rfl, r, rfl⟩
            exact ⟨r, rfl⟩
          · rintro ⟨r, h⟩
            injection h with h1 h2
            exact ⟨h1.symm, r, h2⟩

theorem getLast?_mem {α : Type} : ∀ (l : List α) (a : α), l.getLast? = some a → a ∈ l
  | [], a => by simp
  | [x], a => by
      intro h
      simp only [List.getLast?_singleton] at h
      injection h with h
      simp [h]
  | x :: y :: ys, a => by
      rw [List.getLast?_cons_cons]
      intro h
      exact List.mem_cons_of_mem _ (getLast?_mem (y :: ys) a h)

theorem runMatch_spec (run t : List Char) (h : runMatch run = some t) :
    ∃ k, 1 ≤ k ∧ k < run.length ∧
      startsWithList ['.', 'p', 'y'] (run.drop k) = true ∧ t = run.take (k + 3) := by
  unfold runMatch at h
  cases hl : (pyOffsets run).getLast? with
  | none =>
      rw [hl] at h
      cases h
  | some k =>
      rw [hl] at h
      injection h with h
      have hk := getLast?_mem _ _ hl
      unfold pyOffsets at hk
      rw [List.mem_filter] at hk
      obtain ⟨hr, hp⟩ := hk
      rw [List.mem_range] at hr
      rw [Bool.and_eq_true] at hp
      exact ⟨k, by simpa using hp.1, hr, hp.2, h.symm⟩

theorem pyFind_cons_some (c : Char) (rest : List Char) (m : List Char)
    (h : matchAtPos (c :: rest) = some m) : pyFind (c :: rest) = some m := by
  rw [pyFind, h]

theorem pyFind_cons_none (c : Char) (rest : List Char)
    (h : matchAtPos (c :: rest) = none) : pyFind (c :: rest) = pyFind rest := by
  rw [pyFind, h]

theorem matchAtPos_spec (s t : List Char) (h : matchAtPos s = some t) :
    (∃ a, a ≠ [] ∧ t = a ++ ['.', 'p', 'y']) ∧
    (∀ c ∈ t, isPyTokenChar c = true) ∧ (∃ r, s = t ++ r) := by
  unfold matchAtPos at h
  obtain ⟨k, hk1, hklen, hstart, ht⟩ := runMatch_spec _ _ h
  refine ⟨⟨(s.takeWhile isPyTokenChar).take k, ?_, ?_⟩, ?_, ?_⟩
  · intro hnil
    have hlen := congrArg List.length hnil
    rw [List.length_take] at hlen
    simp only [List.length_nil] at hlen
    omega
  · rw [ht, List.take_add]
    congr 1
    obtain ⟨r2, hr2⟩ := (startsWithList_iff _ _).mp hstart
    rw [hr2]
    have h3 : (3 : ℕ) = (['.', 'p', 'y'] : List Char).length := rfl
    rw [h3, List.take_left]
  · intro ch hch
    rw [ht] at hch
    exact List.mem_takeWhile_imp (List.take_subset _ _ hch)
  · refine ⟨(s.takeWhile isPyTokenChar).drop (k + 3) ++ s.dropWhile isPyTokenChar, ?_⟩
    rw [ht, ← List.append_assoc, List.take_append_drop]
    exact (List.takeWhile_append_dropWhile isPyTokenChar s).symm

theorem pyFind_spec (s : List Char) : ∀ t : List Char, pyFind s = some t →
    (∃ a, a ≠ [] ∧ t = a ++ ['.', 'p', 'y']) ∧
    (∀ c ∈ t, isPyTokenChar c = true) ∧ (∃ l r, s = l ++ t ++ r) := by
  induction s with
  | nil =>
      intro t h
      cases h
  | cons c rest ih =>
      intro t h
      cases hm : matchAtPos (c :: rest) with
      | some m =>
          rw [pyFind_cons_some c rest m hm] at h
          injection h with h
          subst h
          obtain ⟨hend, hclass, r, hr⟩ := matchAtPos_spec _ _ hm
          exact ⟨hend, hclass, [], r, by rw [List.nil_append]; exact hr⟩
      | none =>
          rw [pyFind_cons_none c rest hm] at h
          obtain ⟨hend, hclass, l, r, hs⟩ := ih t h
          exact ⟨hend, hclass, c :: l, r, by rw [hs]; rfl⟩

/- Helper lemmas: the tab correlator. -/

theorem correlateGo_length (rendererMemory : List JSNum) (rng : ℕ → ℤ) :
    ∀ (tl : List String) (j : ℕ), (correlateGo rendererMemory rng j tl).length = tl.length := by
  intro tl
  induction tl with
  | nil => intro j; rfl
  | cons line rest ih =>
      intro j
      rw [correlateGo, List.length_cons, List.length_cons, ih (j + 1)]

theorem correlateGo_getElem? (rendererMemory : List JSNum) (rng : ℕ → ℤ) :
    ∀ (tl : List String) (j i : ℕ),
      (correlateGo rendererMemory rng j tl)[i]? =
        (tl[i]?).map (fun line =>
          mkTab line (jsOrNum rendererMemory[j + i]?
            (roundDiv (some (50 * 2 ^ 53 + 100 * rng (j + i))) (2 ^ 53)))) := by
  intro tl
  induction tl with
  | nil =>
      intro j i
      simp [correlateGo]
  | cons line rest ih =>
      intro j i
      cases i with
      | zero =>
          simp [correlateGo]
      | succ i =>
          rw [correlateGo, List.getElem?_cons_succ, List.getElem?_cons_succ, ih (j + 1) i]
          have harr : j + 1 + i = j + (i + 1) := by omega
          rw [harr]

theorem mem_correlateGo (rendererMemory : List JSNum) (rng : ℕ → ℤ) :
    ∀ (tl : List String) (j : ℕ) (tab : ChromeTab),
      tab ∈ correlateGo rendererMemory rng j tl → ∃ line est, tab = mkTab line est := by
  intro tl
  induction tl with
  | nil =>
      intro j tab h
      cases h
  | cons line rest ih =>
      intro j tab h
      rw [correlateGo] at h
      rcases List.mem_cons.mp h with rfl | h2
      · exact ⟨line, _, rfl⟩
      · exact ih (j + 1) tab h2

theorem length_jsSubstring (s : String) (n : ℕ) :
    (jsSubstring s n).length = min n s.length := by
  unfold jsSubstring
  show (s.data.take n).length = min n s.data.length
  rw [List.length_take]

theorem mkTab_title_eq (line : String) (est : JSNum) :
    (mkTab line est).title =
      if (jsSubstring ((jsSplitOn line "|||").headD "") 60).isEmpty then "Unknown"
      else jsSubstring ((jsSplitOn line "|||").headD "") 60 := rfl

theorem mkTab_title_length (line : String) (est : JSNum) :
    (mkTab line est).title.length ≤ 60 := by
  rw [mkTab_title_eq]
  by_cases h : (jsSubstring ((jsSplitOn line "|||").headD "") 60).isEmpty = true
  · rw [if_pos h]
    decide
  · rw [if_neg h]
    calc (jsSubstring ((jsSplitOn line "|||").headD "") 60).length
        = min 60 ((jsSplitOn line "|||").headD "").length := length_jsSubstring _ _
      _ ≤ 60 := min_le_left _ _

theorem randEstimate_bounds (k : ℤ) (h0 : 0 ≤ k) (h1 : k < 2 ^ 53) :
    ∃ m : ℤ, roundDiv (some (50 * 2 ^ 53 + 100 * k)) (2 ^ 53) = some m ∧
      50 ≤ m ∧ m ≤ 150 := by
  have hc : (0 : ℤ) < 2 ^ 53 := by positivity
  refine ⟨Int.fdiv (2 * (50 * 2 ^ 53 + 100 * k) + 2 ^ 53) (2 * 2 ^ 53), rfl, ?_, ?_⟩
  · rw [Int.fdiv_eq_ediv _ (by positivity), Int.le_ediv_iff_mul_le (by positivity)]
    linarith
  · have h : Int.fdiv (2 * (50 * 2 ^ 53 + 100 * k) + 2 ^ 53) (2 * 2 ^ 53) < 151 := by
      rw [Int.fdiv_eq_ediv _ (by positivity), Int.ediv_lt_iff_lt_mul (by positivity)]
      linarith
    omega

theorem mkTab_memory (line : String) (est : JSNum) : (mkTab line est).memory = est := rfl

theorem mkTab_url_eq (line : String) (est : JSNum) :
    (mkTab line est).url = ((jsSplitOn line "|||")[1]?).getD "" := rfl

/- Helper lemmas: each produced list is a stable descending sort. -/

theorem appsFromLines_pairwise (rules : List AppRule) (lines : List String)
    (hd : ∀ a ∈ appsFromLines rules lines, a.memory.isSome = true) :
    (appsFromLines rules lines).Pairwise (fun a b => jsGtNum b.memory a.memory = false) :=
  jsSortDesc_pairwise (fun a => a.memory) _
    (fun y hy => hd y ((mem_jsSortDesc _ _ _).mpr hy))

theorem getPythonProcesses_pairwise (src : Except Unit String)
    (hd : ∀ p ∈ getPythonProcesses src, p.memory.isSome = true) :
    (getPythonProcesses src).Pairwise (fun a b => jsGtNum b.memory a.memory = false) := by
  cases src with
  | error e => exact List.Pairwise.nil
  | ok output =>
      exact jsSortDesc_pairwise (fun p => p.memory) _
        (fun y hy => hd y ((mem_jsSortDesc _ _ _).mpr hy))

theorem getClaudeSessions_pairwise (src : Except Unit String)
    (lsof : JSNum → Except Unit String)
    (hd : ∀ s ∈ getClaudeSessions src lsof, s.memory.isSome = true) :
    (getClaudeSessions src lsof).Pairwise (fun a b => jsGtNum b.memory a.memory = false) := by
  cases src with
  | error e => exact List.Pairwise.nil
  | ok output =>
      exact jsSortDesc_pairwise (fun s => s.memory) _
        (fun y hy => hd y ((mem_jsSortDesc _ _ _).mpr hy))

theorem getVSCodeWorkspaces_pairwise (src winSrc : Except Unit String)
    (hd : ∀ w ∈ getVSCodeWorkspaces src winSrc, w.memory.isSome = true) :
    (getVSCodeWorkspaces src winSrc).Pairwise (fun a b => jsGtNum b.memory a.memory = false) := by
  cases src with
  | error e => exact List.Pairwise.nil
  | ok output =>
      exact jsSortDesc_pairwise (fun w => w.memory) _
        (fun y hy => hd y ((mem_jsSortDesc _ _ _).mpr hy))

theorem getChromeTabs_pairwise (psSrc tabsSrc : Except Unit String) (rng : ℕ → ℤ)
    (hd : ∀ t ∈ getChromeTabs psSrc tabsSrc rng, t.memory.isSome = true) :
    (getChromeTabs psSrc tabsSrc rng).Pairwise (fun a b => jsGtNum b.memory a.memory = false) := by
  cases psSrc with
  | error e => exact List.Pairwise.nil
  | ok psOutput =>
      cases tabsSrc with
      | error e => exact List.Pairwise.nil
      | ok tabsOutput =>
          exact jsSortDesc_pairwise (fun t => t.memory) _
            (fun y hy => hd y ((mem_jsSortDesc _ _ _).mpr hy))

/- Claim theorems. -/

/-- C5 counterexample: with tab lines [a, b] (T = 2) and the descending
renderer list [0] (N = 1 < T), the tab at correlation index 0 is not
assigned the renderer value 0: zero is falsy in JS, so the || falls through
to the randomized estimate (here 50), contradicting the claim that every
index below N receives the positional renderer value. -/
theorem claim_C5_counterexample :
    (correlateTabs ["a|||u", "b|||v"] [some 0] (fun _ => 0)).map (fun t => t.memory) =
      [some 50, some 50] ∧
    ((correlateTabs ["a|||u", "b|||v"] [some 0] (fun _ => 0)).map
        (fun t => t.memory))[0]? ≠ some (some 0) :=
  ⟨by decide, by decide⟩

/-- C5 amended: the tab correlator produces exactly T entries; the tab at
correlation index i is assigned the i-th renderer memory value whenever that
value is present and truthy (nonzero and not NaN); every other index, in
particular every index at or beyond the renderer count N, receives a
synthesized estimate in the fixed fallback range of 50 to 150 MB. -/
theorem claim_C5_amended :
    ∀ (tabLines : List String) (rendererMemory : List JSNum) (rng : ℕ → ℤ),
      (correlateTabs tabLines rendererMemory rng).length = tabLines.length ∧
      (∀ (i : ℕ) (line : String) (v : JSNum), tabLines[i]? = some line →
          rendererMemory[i]? = some v → jsFalsy v = false →
          ((correlateTabs tabLines rendererMemory rng)[i]?).map (fun t => t.memory) =
            some v) ∧
      (∀ (i : ℕ) (line : String), tabLines[i]? = some line →
          (rendererMemory[i]? = none ∨
            (∃ v, rendererMemory[i]? = some v ∧ jsFalsy v = true)) →
          0 ≤ rng i → rng i < 2 ^ 53 →
          ∃ m : ℤ,
            ((correlateTabs tabLines rendererMemory rng)[i]?).map (fun t => t.memory) =
              some (some m) ∧ 50 ≤ m ∧ m ≤ 150) := by
  intro tabLines rendererMemory rng
  refine ⟨correlateGo_length _ _ tabLines 0, ?_, ?_⟩
  · intro i line v hline hv hfal
    unfold correlateTabs
    rw [correlateGo_getElem? rendererMemory rng tabLines 0 i, Nat.zero_add, hline, hv]
    simp [jsOrNum, hfal, mkTab_memory]
  · intro i line hline hfall h0 h1
    obtain ⟨m, hm, hm1, hm2⟩ := randEstimate_bounds (rng i) h0 h1
    refine ⟨m, ?_, hm1, hm2⟩
    unfold correlateTabs
    rw [correlateGo_getElem? rendererMemory rng tabLines 0 i, Nat.zero_add, hline]
    rcases hfall with hnone | ⟨v, hv, hfal⟩
    · rw [hnone]
      simp only [Option.map_some', jsOrNum, mkTab_memory]
      rw [hm]
    · rw [hv]
      simp only [Option.map_some', jsOrNum, hfal, if_true, mkTab_memory]
      rw [hm]

/-- C5 witness: two tabs against the one-element truthy renderer list [120]
with a zero random stream: index 0 takes 120 positionally, index 1 falls
back to an estimate inside [50, 150]. -/
theorem claim_C5_witness :
    ((correlateTabs ["a|||u", "b|||v"] [some 120] (fun _ => 0))[0]?).map
        (fun t => t.memory) = some (some 120) ∧
    (∃ m : ℤ,
      ((correlateTabs ["a|||u", "b|||v"] [some 120] (fun _ => 0))[1]?).map
          (fun t => t.memory) = some (some m) ∧ 50 ≤ m ∧ m ≤ 150) :=
  ⟨(claim_C5_amended ["a|||u", "b|||v"] [some 120] (fun _ => 0)).2.1 0 "a|||u" (some 120)
      (by decide) (by decide) (by decide),
   (claim_C5_amended ["a|||u", "b|||v"] [some 120] (fun _ => 0)).2.2 1 "b|||v"
      (by decide) (Or.inl (by decide)) (by decide) (by decide)⟩

/-- C6 counterexample: the line with six whitespace-delimited fields (fewer
than the expected eleven) is skipped by neither detail path.  In the Python
path its rss field parses to 200 MB, the empty command earns a truncated
label of three dots, and a record is produced; in the Claude-session path
the 200 MB value passes the 50 MB floor (no field-count guard runs first)
and a session record is produced.  Both contradict the claim that every
parsing path drops short lines. -/
theorem claim_C6_counterexample :
    (jsSplitWs pyShortLine).length = 6 ∧
    getPythonProcesses (.ok pyShortLine) =
      [{ script := "...", memory := some 200, pid := some 7 }] ∧
    getClaudeSessions (.ok pyShortLine) (fun _ => .ok "") =
      [{ workingDir := "", projectName := "Home", memory := some 200,
         pid := some 7, isSubagent := false }] :=
  ⟨by decide, by decide, by decide⟩

/-- C6 amended: only the application classifier enforces the eleven-field
minimum: a process-table line with fewer whitespace-delimited fields leaves
its accumulator untouched and raises no error; the Python and Claude detail
paths do not enforce this minimum and do produce records from the six-field
line u 7 0 0 0 204800. -/
theorem claim_C6_amended :
    (∀ (rules : List AppRule) (m : List (String × AppData)) (line : String),
        (jsSplitWs line).length < 11 → stepPsLineR rules m line = m) ∧
    getPythonProcesses (.ok pyShortLine) ≠ [] ∧
    getClaudeSessions (.ok pyShortLine) (fun _ => .ok "") ≠ [] := by
  refine ⟨?_, by decide, by decide⟩
  intro rules m line h
  unfold stepPsLineR
  rw [if_pos h]

/-- C6 witness: a two-field line leaves the classifier map empty. -/
theorem claim_C6_witness :
    (jsSplitWs "a b").length < 11 ∧ stepPsLineR appPatterns [] "a b" = [] :=
  ⟨by decide, claim_C6_amended.1 appPatterns [] "a b" (by decide)⟩

/-- C7: on the two given process lines, getPythonProcesses returns exactly
one record, with label ingest_pipeline.py (the .py match wins over the
ingest marker), memory 200 MB and pid 100; the 5 MB process is dropped by
the 10 MB inclusion floor even though its label was derived. -/
theorem claim_C7_end_to_end :
    getPythonProcesses (.ok c7Input) =
      [{ script := "ingest_pipeline.py", memory := some 200, pid := some 100 }] := by
  decide

/-- C8 counterexample: the command line whose only whitespace token suffixed
with .py is the path /app/foo.py derives the label foo.py, not that token
verbatim: the regex class excludes slashes, so the match is the basename
fragment. -/
theorem claim_C8_counterexample :
    jsSplitWs c8Cmd = ["/usr/bin/python3", "/app/foo.py"] ∧
    pythonScript c8Cmd none = some "foo.py" ∧
    ("foo.py" : String) ≠ "/app/foo.py" :=
  ⟨by decide, by decide, by decide⟩

/-- C8 amended: whenever the .py matcher finds a fragment in the command
line, the derived label is exactly that fragment, regardless of the memory
value and of any other marker the command contains (the match takes priority
over all other labeling heuristics); the fragment is a nonempty run of
non-whitespace, non-slash characters ending in .py and occurs contiguously
in the command line (the basename rather than a full path token). -/
theorem claim_C8_amended :
    ∀ (command : String) (memory : JSNum) (t : List Char),
      pyFind command.data = some t →
      pythonScript command memory = some (String.mk t) ∧
      (∃ a, a ≠ [] ∧ t = a ++ ['.', 'p', 'y']) ∧
      (∀ c ∈ t, isPyTokenChar c = true) ∧
      (∃ l r, command.data = l ++ t ++ r) := by
  intro command memory t h
  obtain ⟨hend, hclass, hinfix⟩ := pyFind_spec command.data t h
  refine ⟨?_, hend, hclass, hinfix⟩
  unfold pythonScript
  rw [h]

/-- C8 witness: the command python3 a.py derives the label a.py. -/
theorem claim_C8_witness :
    pythonScript "python3 a.py" none = some (String.mk "a.py".data) ∧
    (∃ a, a ≠ [] ∧ "a.py".data = a ++ ['.', 'p', 'y']) ∧
    (∀ c ∈ "a.py".data, isPyTokenChar c = true) ∧
    (∃ l r, ("python3 a.py" : String).data = l ++ "a.py".data ++ r) :=
  claim_C8_amended "python3 a.py" none "a.py".data (by decide)

/-- C10: every TabDetail built by the tab correlator has a title of at most
60 characters; a tab line whose title field is empty after truncation yields
the label Unknown, and a line with no URL field yields the empty string, so
no TabDetail field is ever absent. -/
theorem claim_C10_tab_fields :
    ∀ (tabLines : List String) (rendererMemory : List JSNum) (rng : ℕ → ℤ),
      (∀ tab ∈ correlateTabs tabLines rendererMemory rng, tab.title.length ≤ 60) ∧
      (∀ (i : ℕ) (line : String), tabLines[i]? = some line →
          ∃ tab, (correlateTabs tabLines rendererMemory rng)[i]? = some tab ∧
            (jsSubstring ((jsSplitOn line "|||").headD "") 60 = "" → tab.title = "Unknown") ∧
            ((jsSplitOn line "|||")[1]? = none → tab.url = "")) := by
  intro tabLines rendererMemory rng
  constructor
  · intro tab htab
    obtain ⟨line, est, rfl⟩ := mem_correlateGo rendererMemory rng tabLines 0 tab htab
    exact mkTab_title_length line est
  · intro i line hline
    refine ⟨mkTab line
        (jsOrNum rendererMemory[0 + i]?
          (roundDiv (some (50 * 2 ^ 53 + 100 * rng (0 + i))) (2 ^ 53))), ?_, ?_, ?_⟩
    · unfold correlateTabs
      rw [correlateGo_getElem? rendererMemory rng tabLines 0 i, hline]
      rfl
    · intro hempty
      rw [mkTab_title_eq, hempty]
      rfl
    · intro hurl
      rw [mkTab_url_eq, hurl]
      rfl

/-- C10 witness: a line with empty title field and present URL gets the
Unknown label; a line with no separator gets an empty URL. -/
theorem claim_C10_witness :
    ∃ tab, (correlateTabs ["|||u"] [] (fun _ => 0))[0]? = some tab ∧
      (jsSubstring ((jsSplitOn "|||u" "|||").headD "") 60 = "" → tab.title = "Unknown") ∧
      ((jsSplitOn "|||u" "|||")[1]? = none → tab.url = "") :=
  (claim_C10_tab_fields ["|||u"] [] (fun _ => 0)).2 0 "|||u" (by decide)

/-- C1: for every process-table line and every ordered rule list, the process
is attributed to at most one ApplicationGroup, namely the group of the first
rule in list order whose pattern matches the command line: with no matching
rule the accumulator is untouched, with a first match r only the entry of
r.name changes (receiving the rss and count bump), and a group name that is
the first match of no line is absent from the output list. -/
theorem claim_C1_first_match_classification :
    (∀ (rules : List AppRule) (m : List (String × AppData)) (line : String),
        List.find? (fun r => r.test (cmdOfLine line)) rules = none →
        stepPsLineR rules m line = m) ∧
    (∀ (rules : List AppRule) (m : List (String × AppData)) (line : String) (r : AppRule),
        List.find? (fun rr => rr.test (cmdOfLine line)) rules = some r →
        (∀ n, n ≠ r.name → mapGet (stepPsLineR rules m line) n = mapGet m n) ∧
        (¬ (jsSplitWs line).length < 11 →
            stepPsLineR rules m line = bumpApp m r (rssOfLine line))) ∧
    (∀ (rules : List AppRule) (lines : List String) (n : String),
        (∀ line ∈ lines, ∀ r : AppRule,
            List.find? (fun rr => rr.test (cmdOfLine line)) rules = some r → r.name ≠ n) →
        n ∉ (appsFromLines rules lines).map (fun a => a.name)) := by
  refine ⟨?_, ?_, ?_⟩
  · intro rules m line h
    exact stepPsLineR_of_none rules m line h
  · intro rules m line r h
    constructor
    · intro n hn
      unfold stepPsLineR
      by_cases hl : (jsSplitWs line).length < 11
      · rw [if_pos hl]
      · rw [if_neg hl, applyRules_of_some _ _ _ _ _ h]
        exact mapGet_bumpApp_ne _ _ _ _ hn
    · intro hl
      unfold stepPsLineR
      rw [if_neg hl]
      exact applyRules_of_some _ _ _ _ _ h
  · intro rules lines n hall hmem
    rw [List.mem_map] at hmem
    obtain ⟨a, ha, hname⟩ := hmem
    unfold appsFromLines at ha
    rw [mem_jsSortDesc] at ha
    rw [List.mem_map] at ha
    obtain ⟨kv, hkv, hkva⟩ := ha
    have hgetnone : mapGet (buildAppMap rules lines) n = none := by
      unfold buildAppMap
      exact mapGet_foldl_none rules lines n [] rfl hall
    refine mapGet_eq_none_forall _ _ hgetnone kv hkv ?_
    have hn1 : kv.1 = a.name := by rw [← hkva]
    rw [hn1, hname]

/-- C1 witness: a line matching no rule leaves the map empty; a Python line
leaves the Docker entry untouched; Slack is absent from the output of a
table whose single line first-matches Python. -/
theorem claim_C1_witness :
    stepPsLineR appPatterns [] "u 1 0 0 0 2048 x x x x /usr/bin/banana" = [] ∧
    mapGet (stepPsLineR appPatterns []
        "u 1 0 0 0 204800 x x x x /usr/bin/python3 app.py") "Docker" = none ∧
    "Slack" ∉ (appsFromLines appPatterns
        ["u 1 0 0 0 204800 x x x x /usr/bin/python3 app.py"]).map (fun a => a.name) := by
  have hfnone : List.find?
      (fun r => r.test (cmdOfLine "u 1 0 0 0 2048 x x x x /usr/bin/banana")) appPatterns =
      none := rfl
  have hfsome : List.find?
      (fun rr => rr.test (cmdOfLine "u 1 0 0 0 204800 x x x x /usr/bin/python3 app.py"))
      appPatterns =
      some { name := "Python", test := fun command => containsCI command "python", color := "#3776ab" } := rfl
  refine ⟨?_, ?_, ?_⟩
  · exact claim_C1_first_match_classification.1 appPatterns [] _ hfnone
  · rw [(claim_C1_first_match_classification.2.1 appPatterns [] _ _ hfsome).1 "Docker"
      (by decide)]
    rfl
  · apply claim_C1_first_match_classification.2.2 appPatterns _ "Slack"
    intro line hline r hr
    have hline2 : line = "u 1 0 0 0 204800 x x x x /usr/bin/python3 app.py" := by
      rcases List.mem_cons.mp hline with h | h
      · exact h
      · cases h
    rw [hline2] at hr
    rw [hfsome] at hr
    injection hr with hr
    rw [← hr]
    decide

/-- C2: each of the four detail getters returns the empty list when its
external source fails instead of propagating the failure, and failing any
one of the four sources changes nothing in the snapshot beyond emptying that
one list: the other three lists and the top-level totals are unchanged. -/
theorem claim_C2_detail_failure_isolation :
    (getPythonProcesses (.error ()) = []) ∧
    (∀ lsof : JSNum → Except Unit String, getClaudeSessions (.error ()) lsof = []) ∧
    (∀ winSrc : Except Unit String, getVSCodeWorkspaces (.error ()) winSrc = []) ∧
    (∀ (tabsSrc : Except Unit String) (rng : ℕ → ℤ), getChromeTabs (.error ()) tabsSrc rng = []) ∧
    (∀ (psSrc : Except Unit String) (rng : ℕ → ℤ), getChromeTabs psSrc (.error ()) rng = []) ∧
    (∀ env : Env, getSystemMemory { env with pythonPs := .error () } =
        (getSystemMemory env).map (fun s => { s with pythonProcesses := [] })) ∧
    (∀ env : Env, getSystemMemory { env with claudePs := .error () } =
        (getSystemMemory env).map (fun s => { s with claudeSessions := [] })) ∧
    (∀ env : Env, getSystemMemory { env with vscodePs := .error () } =
        (getSystemMemory env).map (fun s => { s with vscodeWorkspaces := [] })) ∧
    (∀ env : Env, getSystemMemory { env with chromePs := .error () } =
        (getSystemMemory env).map (fun s => { s with chromeTabs := [] })) := by
  refine ⟨rfl, fun lsof => rfl, fun winSrc => rfl, fun tabsSrc rng => rfl, ?_, ?_, ?_, ?_, ?_⟩
  · intro psSrc rng
    cases psSrc <;> rfl
  · intro env
    rcases env with ⟨sm, vm, pa, py, cl, lf, vp, vw, cp, ct, rg, nw⟩
    cases sm <;> cases vm <;> cases pa <;> rfl
  · intro env
    rcases env with ⟨sm, vm, pa, py, cl, lf, vp, vw, cp, ct, rg, nw⟩
    cases sm <;> cases vm <;> cases pa <;> rfl
  · intro env
    rcases env with ⟨sm, vm, pa, py, cl, lf, vp, vw, cp, ct, rg, nw⟩
    cases sm <;> cases vm <;> cases pa <;> rfl
  · intro env
    rcases env with ⟨sm, vm, pa, py, cl, lf, vp, vw, cp, ct, rg, nw⟩
    cases sm <;> cases vm <;> cases pa <;> rfl

/-- C3 counterexample: with every other source available, a failing vm_stat
source makes getSystemMemory itself fail: the claim that the snapshot
operation still returns a SystemSnapshot with empty lists and zero totals is
false, because the three top-level awaits sit outside any try/catch. -/
theorem claim_C3_counterexample : getSystemMemory envC3 = .error () := rfl

/-- C3 amended: a failure of the vm-stat or process-table source propagates
out of getSystemMemory (it raises to its caller); only when the three
top-level sources succeed does it return a snapshot, and then it does so
whatever the four detail sources do. -/
theorem claim_C3_amended :
    (∀ (env : Env) (s : String), env.sysctlMemsize = .ok s → env.vmStat = .error () →
        getSystemMemory env = .error ()) ∧
    (∀ (env : Env) (s t : String), env.sysctlMemsize = .ok s → env.vmStat = .ok t →
        env.psAux = .error () → getSystemMemory env = .error ()) ∧
    (∀ (env : Env) (s t u : String), env.sysctlMemsize = .ok s → env.vmStat = .ok t →
        env.psAux = .ok u → ∃ snap, getSystemMemory env = .ok snap) := by
  refine ⟨?_, ?_, ?_⟩
  · intro env s h1 h2
    rcases env with ⟨sm, vm, pa, py, cl, lf, vp, vw, cp, ct, rg, nw⟩
    simp only at h1 h2
    subst h1
    subst h2
    rfl
  · intro env s t h1 h2 h3
    rcases env with ⟨sm, vm, pa, py, cl, lf, vp, vw, cp, ct, rg, nw⟩
    simp only at h1 h2 h3
    subst h1
    subst h2
    subst h3
    rfl
  · intro env s t u h1 h2 h3
    rcases env with ⟨sm, vm, pa, py, cl, lf, vp, vw, cp, ct, rg, nw⟩
    simp only at h1 h2 h3
    subst h1
    subst h2
    subst h3
    exact ⟨_, rfl⟩

/-- C3 witness: with all sources succeeding on empty text, a snapshot is
returned. -/
theorem claim_C3_witness : ∃ snap, getSystemMemory envEmpty = .ok snap :=
  claim_C3_amended.2.2 envEmpty "" "" "" rfl rfl rfl

/-- C4 counterexample: two runs over identical raw text inputs and identical
clocks, differing only in the random stream, produce snapshots with equal
timestamps but different chromeTabs, contradicting determinism of the whole
pipeline over the raw text inputs: the tab correlator draws Math.random for
backfilled entries. -/
theorem claim_C4_counterexample :
    (getSystemMemory envC4).toOption.map (fun s => s.timestamp) =
      (getSystemMemory envC4b).toOption.map (fun s => s.timestamp) ∧
    (getSystemMemory envC4).toOption.map (fun s => s.chromeTabs) ≠
      (getSystemMemory envC4b).toOption.map (fun s => s.chromeTabs) :=
  ⟨rfl, by decide⟩

/-- C4 amended: for fixed raw text inputs and a fixed random stream the
snapshot is a deterministic function of the inputs, and two runs differing
only in the sampling clock produce snapshots equal in every field except the
timestamp, which equals the clock. -/
theorem claim_C4_amended :
    ∀ (env : Env) (t : ℤ),
      getSystemMemory { env with now := t } =
        (getSystemMemory env).map (fun s => { s with timestamp := t }) := by
  intro env t
  rcases env with ⟨sm, vm, pa, py, cl, lf, vp, vw, cp, ct, rg, nw⟩
  cases sm <;> cases vm <;> cases pa <;> rfl

/-- C9: in every snapshot getSystemMemory returns, each of the five lists is
descending in its memory key wherever the memory values are genuine numbers
(not NaN), and the underlying sort is stable: for every key value, filtering
the sorted list down to that exact key yields the pre-sort sublist
unchanged. -/
theorem claim_C9_sorted_stable :
    (∀ (env : Env) (snap : SystemMemory), getSystemMemory env = .ok snap →
        ((∀ a ∈ snap.apps, a.memory.isSome = true) →
            snap.apps.Pairwise (fun a b => jsGtNum b.memory a.memory = false)) ∧
        ((∀ t ∈ snap.chromeTabs, t.memory.isSome = true) →
            snap.chromeTabs.Pairwise (fun a b => jsGtNum b.memory a.memory = false)) ∧
        ((∀ p ∈ snap.pythonProcesses, p.memory.isSome = true) →
            snap.pythonProcesses.Pairwise (fun a b => jsGtNum b.memory a.memory = false)) ∧
        ((∀ s ∈ snap.claudeSessions, s.memory.isSome = true) →
            snap.claudeSessions.Pairwise (fun a b => jsGtNum b.memory a.memory = false)) ∧
        ((∀ w ∈ snap.vscodeWorkspaces, w.memory.isSome = true) →
            snap.vscodeWorkspaces.Pairwise (fun a b => jsGtNum b.memory a.memory = false))) ∧
    (∀ (α : Type) (key : α → JSNum) (l : List α) (q : JSNum),
        (jsSortDesc key l).filter (fun x => decide (key x = q)) =
          l.filter (fun x => decide (key x = q))) := by
  constructor
  · intro env snap h
    rcases env with ⟨sm, vm, pa, py, cl, lf, vp, vw, cp, ct, rg, nw⟩
    cases sm with
    | error e => cases h
    | ok ms =>
    cases vm with
    | error e => cases h
    | ok vs =>
    cases pa with
    | error e => cases h
    | ok ps =>
        injection h with h
        subst h
        refine ⟨?_, ?_, ?_, ?_, ?_⟩
        · intro hd
          exact appsFromLines_pairwise _ _ hd
        · intro hd
          exact getChromeTabs_pairwise _ _ _ hd
        · intro hd
          exact getPythonProcesses_pairwise _ hd
        · intro hd
          exact getClaudeSessions_pairwise _ _ hd
        · intro hd
          exact getVSCodeWorkspaces_pairwise _ _ hd
  · intro α key l q
    exact jsSortDesc_filter_key key l q

/-- C9 witness: the empty-input snapshot satisfies the descending property
on its (empty) session list. -/
theorem claim_C9_witness :
    snapEmpty.claudeSessions.Pairwise (fun a b => jsGtNum b.memory a.memory = false) :=
  ((claim_C9_sorted_stable.1 envEmpty snapEmpty rfl).2.2.2.1)
    (fun s hs => absurd hs (List.not_mem_nil s))
